import Mathlib

/-!
# nativehost.cpp: a shallow embedding

C strings are lists of characters (the terminating zero byte is implicit, so
`strlen` is `List.length`); a pointer into a string is an index.  A read
before the start of a string is the `none` branch of the function doing the
read.  Assertions are taken as enabled: the source does not define `NDEBUG`.
-/

namespace NativeHost

/-- The macro `DIR_SEPARATOR`. -/
def DIR_SEPARATOR : Char := '/'

/-! ## String helpers -/

/-- Backward search of `std::string::find_last_of`: `n` is the number of
positions still to inspect, the result is the greatest index below `n` holding
`c`, or `none` for `npos`. -/
def find_last_from (path : List Char) (c : Char) : Nat → Option Nat
  | 0 => none
  | n + 1 => if path[n]? = some c then some n else find_last_from path c n

/-- The call `path.find_last_of(c)`. -/
def find_last_of (path : List Char) (c : Char) : Option Nat :=
  find_last_from path c path.length

/-- The call `path.substr(0, count)`, `none` being `npos`. -/
def substr0 (path : List Char) : Option Nat → List Char
  | none => path
  | some n => path.take n

/-- The function `trim_extension`. -/
def trim_extension (path : List Char) : List Char :=
  let extension_start := find_last_of path '.'
  substr0 path extension_start

/-- First loop of `get_name_from_path`, `while (*ptr != '.') ptr--;`.  The
argument is `ptr + 1`, so `0` means that `ptr` stands before the start of the
string and the read is out of bounds. -/
def scan_dot (path : List Char) : Nat → Option Nat
  | 0 => none
  | ptr + 1 =>
    match path[ptr]? with
    | none => none
    | some c => if c ≠ '.' then scan_dot path ptr else some ptr

/-- Second loop of `get_name_from_path`, `while (*(--ptr) != '/') name_size++;`.
The first argument is `ptr` before the decrement; the result is the final
`ptr` (the index of the separator) with the final `name_size`. -/
def scan_slash (path : List Char) : Nat → Nat → Option (Nat × Nat)
  | 0, _ => none
  | ptr + 1, name_size =>
    match path[ptr]? with
    | none => none
    | some c =>
      if c ≠ DIR_SEPARATOR then scan_slash path ptr (name_size + 1)
      else some (ptr, name_size)

/-- Copy loop of `get_name_from_path`: the first `count` bytes of the result,
byte `i` being `*(ptr + i + 1)`. -/
def copy_name (path : List Char) (ptr : Nat) : Nat → Option (List Char)
  | 0 => some []
  | i + 1 =>
    match copy_name path ptr i, path[ptr + i + 1]? with
    | some result, some c => some (result ++ [c])
    | _, _ => none

/-- The function `get_name_from_path`.  The result is the content of the
`calloc(name_size, 1)` allocation, all `name_size` bytes of it; `none` when a
scan reads before the start of `path`. -/
def get_name_from_path (path : List Char) : Option (List Char) :=
  match scan_dot path path.length with
  | none => none
  | some ptr =>
    match scan_slash path ptr 0 with
    | none => none
    | some (ptr, name_size) => copy_name path ptr name_size

/-- The zero byte that ends a C string. -/
def NUL : Char := Char.ofNat 0

/-- Reading a `const char *` that points at an allocation holding `bytes`:
the characters before the first zero byte.  The program does not determine the
bytes that follow the allocation on the heap; they are the parameter
`heap_after`. -/
def read_c_string (bytes heap_after : List Char) : List Char :=
  (bytes ++ heap_after).takeWhile (fun c => c ≠ NUL)

/-- The value of `dotnet_type` in `run_csharp_app`, given the allocation that
`get_name_from_path` returned. -/
def dotnet_type (mnamespace mclass name heap_after : List Char) : List Char :=
  mnamespace ++ ".".toList ++ mclass ++ ", ".toList ++ read_c_string name heap_after

/-- Body of the loop in `main` that cuts the executable's name off `host_path`;
the argument is the loop variable `i`. -/
def truncate_loop (host_path : List Char) : Nat → List Char
  | 0 => host_path
  | i + 1 =>
    if host_path[i + 1]? = some DIR_SEPARATOR then host_path.take (i + 2)
    else truncate_loop host_path i

/-- The loop in `main` over `host_path`, started at `strlen(host_path) - 1`. -/
def truncate_host_path (host_path : List Char) : List Char :=
  truncate_loop host_path (host_path.length - 1)

/-! ## The process and its environment

Pointers to functions, library handles and runtime contexts are natural
numbers, `0` being `nullptr`.  Pointers to strings and to the argument vector
are `Option`s, `none` being `nullptr`.  Everything the host obtains from
outside (libc, nethost, hostfxr, the managed runtime, the heap) is a field of
`Env`. -/

/-- The struct `csharp_app_data`. -/
structure csharp_app_data where
  path : List Char
  entry_point : List Char
  mnamespace : List Char
  mclass : List Char
  argc : Nat
  args : Option (List (List Char))
  deriving DecidableEq, Repr

/-- What the outside world answers.  A call through one of the global pointers
filled by `load_hostfxr` is a call of the export of that name; a call through
the delegate or through the entry pointer is a call of the runtime function
or managed method behind it. -/
structure Env where
  /-- Result of `realpath(argv[0], host_path)`. -/
  realpath : List Char → Option (List Char)
  /-- Return code of `get_hostfxr_path` and the path it writes to the buffer. -/
  get_hostfxr_path : Int × List Char
  /-- Result of `dlopen(path, RTLD_LAZY | RTLD_LOCAL)`. -/
  dlopen : List Char → Nat
  /-- Result of `dlsym(h, name)`. -/
  dlsym : Nat → List Char → Nat
  /-- Return code of `hostfxr_initialize_for_runtime_config` and the context it
  stores. -/
  hostfxr_initialize_for_runtime_config : List Char → Int × Nat
  /-- Return code of `hostfxr_get_runtime_delegate` and the delegate it stores. -/
  hostfxr_get_runtime_delegate : Nat → Int × Nat
  /-- Return code of the delegate called with the assembly path, the type name
  and the method name, and the entry pointer it stores. -/
  load_assembly_and_get_function_pointer :
    List Char → List Char → List Char → Int × Nat
  /-- Return value of the managed entry point called with an argument pointer
  and a size. -/
  entry_point : Option (List (List Char)) → Int → Int
  /-- Bytes that follow a `calloc` allocation on the heap. -/
  heap_after : List Char

/-- One call that leaves the program, with its arguments and its answer. -/
inductive Event where
  | realpath (path : List Char) (resolved_path : Option (List Char))
  | get_hostfxr_path (rc : Int)
  | dlopen (path : List Char) (h : Nat)
  | dlsym (name : List Char) (f : Nat)
  | init_for_run_config (config_path : List Char) (rc : Int) (context : Nat)
  | get_delegate (context : Nat) (rc : Int) (delegate : Nat)
  | close (context : Nat)
  | load_assembly_and_get_function_pointer
      (path type_name method : List Char) (rc : Int) (entry : Nat)
  | entry_point (arg : Option (List (List Char))) (size : Int) (ret : Int)
  deriving DecidableEq, Repr

/-- How the process ends: `main` returns a value, an `assert` fails, or a read
leaves the string it scans. -/
inductive Outcome where
  | ret (exit_code : Int)
  | abort
  | out_of_bounds
  deriving DecidableEq, Repr

/-- The function `load_library`; `none` is the failed `assert(h != nullptr)`. -/
def load_library (env : Env) (path : List Char) : List Event × Option Nat :=
  let h := env.dlopen path
  ([Event.dlopen path h], if h ≠ 0 then some h else none)

/-- The function `get_export`; `none` is the failed `assert(f != nullptr)`. -/
def get_export (env : Env) (h : Nat) (name : List Char) : List Event × Option Nat :=
  let f := env.dlsym h name
  ([Event.dlsym name f], if f ≠ 0 then some f else none)

/-- The function `load_hostfxr`; `none` is a failed assertion in `load_library`
or `get_export`. -/
def load_hostfxr (env : Env) : List Event × Option Bool :=
  let (rc, hostfxr_path_buffer) := env.get_hostfxr_path
  let t := [Event.get_hostfxr_path rc]
  if rc ≠ 0 then (t, some false) else
  match load_library env hostfxr_path_buffer with
  | (t1, none) => (t ++ t1, none)
  | (t1, some lib) =>
  match get_export env lib "hostfxr_initialize_for_dotnet_command_line".toList with
  | (t2, none) => (t ++ t1 ++ t2, none)
  | (t2, some _init_for_cmd_line_fptr) =>
  match get_export env lib "hostfxr_initialize_for_runtime_config".toList with
  | (t3, none) => (t ++ t1 ++ t2 ++ t3, none)
  | (t3, some init_for_run_config_fptr) =>
  match get_export env lib "hostfxr_get_runtime_delegate".toList with
  | (t4, none) => (t ++ t1 ++ t2 ++ t3 ++ t4, none)
  | (t4, some get_delegate_fptr) =>
  match get_export env lib "hostfxr_run_app".toList with
  | (t5, none) => (t ++ t1 ++ t2 ++ t3 ++ t4 ++ t5, none)
  | (t5, some _run_app_fptr) =>
  match get_export env lib "hostfxr_close".toList with
  | (t6, none) => (t ++ t1 ++ t2 ++ t3 ++ t4 ++ t5 ++ t6, none)
  | (t6, some close_fptr) =>
    (t ++ t1 ++ t2 ++ t3 ++ t4 ++ t5 ++ t6,
      some (decide (init_for_run_config_fptr ≠ 0) && decide (get_delegate_fptr ≠ 0)
        && decide (close_fptr ≠ 0)))

/-- The value of `app_config_path` in `run_csharp_app`. -/
def app_config_path (app_data : csharp_app_data) : List Char :=
  let app_path := app_data.path
  let app_base_path := trim_extension app_path
  app_base_path ++ ".runtimeconfig.json".toList

/-- The part of `run_csharp_app` after `load_hostfxr` has returned `true`. -/
def run_loaded (env : Env) (app_data : csharp_app_data) : List Event × Outcome :=
  let (rc, context) := env.hostfxr_initialize_for_runtime_config (app_config_path app_data)
  let t := [Event.init_for_run_config (app_config_path app_data) rc context]
  if rc ≠ 0 ∨ context = 0 then (t ++ [Event.close context], Outcome.ret (-1)) else
  let (rc, load_asm_and_get_fn_voidptr) := env.hostfxr_get_runtime_delegate context
  let t := t ++ [Event.get_delegate context rc load_asm_and_get_fn_voidptr]
  if rc ≠ 0 ∨ load_asm_and_get_fn_voidptr = 0 then
    (t ++ [Event.close context], Outcome.ret (-1))
  else
  let t := t ++ [Event.close context]
  let entry_method := app_data.entry_point
  match get_name_from_path app_data.path with
  | none => (t, Outcome.out_of_bounds)
  | some name =>
    let dotnet_type := dotnet_type app_data.mnamespace app_data.mclass name env.heap_after
    let (rc, entry_caller_fn) :=
      env.load_assembly_and_get_function_pointer app_data.path dotnet_type entry_method
    let t := t ++ [Event.load_assembly_and_get_function_pointer
      app_data.path dotnet_type entry_method rc entry_caller_fn]
    if rc ≠ 0 ∨ entry_caller_fn = 0 then (t, Outcome.ret (-1)) else
    let csharp_exit_code := env.entry_point none 0
    (t ++ [Event.entry_point none 0 csharp_exit_code], Outcome.ret csharp_exit_code)

/-- The function `run_csharp_app`. -/
def run_csharp_app (env : Env) (_native_host_path : List Char)
    (app_data : csharp_app_data) : List Event × Outcome :=
  match load_hostfxr env with
  | (t, none) => (t, Outcome.abort)
  | (t, some false) => (t, Outcome.ret (-1))
  | (t, some true) =>
    let r := run_loaded env app_data
    (t ++ r.1, r.2)

/-- The record `app_data` that `main` builds from its argument vector. -/
def make_app_data (argv1 argv2 argv3 argv4 : List Char) (rest : List (List Char)) :
    csharp_app_data :=
  { path := argv1
    entry_point := argv2
    mnamespace := argv3
    mclass := argv4
    argc := (5 + rest.length) - 5
    args := if 5 + rest.length > 5 then some rest else none }

/-- The function `main`; `argc` is the length of `argv`, and fewer than five
arguments fail `assert(argc >= 5)`. -/
def main (env : Env) (argv : List (List Char)) : List Event × Outcome :=
  match argv with
  | argv0 :: argv1 :: argv2 :: argv3 :: argv4 :: rest =>
    let resolved_path := env.realpath argv0
    let t := [Event.realpath argv0 resolved_path]
    match resolved_path with
    | none => (t, Outcome.ret (-1))
    | some host_path =>
      let host_path := truncate_host_path host_path
      let app_data := make_app_data argv1 argv2 argv3 argv4 rest
      let r := run_csharp_app env host_path app_data
      let exit_code := r.2
      (t ++ r.1, exit_code)
  | _ => ([], Outcome.abort)

/-- The five names that `load_hostfxr` passes to `get_export`, in order. -/
def hostfxr_exports : List (List Char) :=
  ["hostfxr_initialize_for_dotnet_command_line".toList,
   "hostfxr_initialize_for_runtime_config".toList,
   "hostfxr_get_runtime_delegate".toList,
   "hostfxr_run_app".toList,
   "hostfxr_close".toList]

/-- What `hostfxr_initialize_for_runtime_config` answers to `run_csharp_app`. -/
def init_result (env : Env) (app_data : csharp_app_data) : Int × Nat :=
  env.hostfxr_initialize_for_runtime_config (app_config_path app_data)

/-- What `hostfxr_get_runtime_delegate` answers to `run_csharp_app`. -/
def delegate_result (env : Env) (app_data : csharp_app_data) : Int × Nat :=
  env.hostfxr_get_runtime_delegate (init_result env app_data).2

/-- What the delegate answers to `run_csharp_app` when `get_name_from_path`
returned the allocation `name`. -/
def entry_result (env : Env) (app_data : csharp_app_data) (name : List Char) : Int × Nat :=
  env.load_assembly_and_get_function_pointer app_data.path
    (dotnet_type app_data.mnamespace app_data.mclass name env.heap_after)
    app_data.entry_point

/-- The test `rc != 0 || pointer == nullptr` that follows each hosting call. -/
def step_failed (r : Int × Nat) : Prop := r.1 ≠ 0 ∨ r.2 = 0

instance (r : Int × Nat) : Decidable (step_failed r) := by
  unfold step_failed
  exact inferInstance

/-- The events `run_csharp_app` produces for the three calls that take the
context. -/
def context_events (env : Env) (app_data : csharp_app_data) : List Event :=
  [Event.init_for_run_config (app_config_path app_data) (init_result env app_data).1
     (init_result env app_data).2,
   Event.get_delegate (init_result env app_data).2 (delegate_result env app_data).1
     (delegate_result env app_data).2,
   Event.close (init_result env app_data).2]

/-- The event for the call of the delegate. -/
def entry_event (env : Env) (app_data : csharp_app_data) (name : List Char) : Event :=
  Event.load_assembly_and_get_function_pointer app_data.path
    (dotnet_type app_data.mnamespace app_data.mclass name env.heap_after)
    app_data.entry_point (entry_result env app_data name).1 (entry_result env app_data name).2

/-- The calls into the hosting library and the runtime that `run_csharp_app`
makes after `load_hostfxr`. -/
inductive Call where
  | init_for_run_config
  | get_delegate
  | close
  | load_assembly_and_get_function_pointer
  | entry_point
  deriving DecidableEq, Repr

/-- The hosting call an event stands for, if it is one. -/
def Event.call : Event → Option Call
  | Event.init_for_run_config _ _ _ => some Call.init_for_run_config
  | Event.get_delegate _ _ _ => some Call.get_delegate
  | Event.close _ => some Call.close
  | Event.load_assembly_and_get_function_pointer _ _ _ _ _ =>
    some Call.load_assembly_and_get_function_pointer
  | Event.entry_point _ _ _ => some Call.entry_point
  | _ => none

/-- The hosting calls of a trace, in order. -/
def hosting_calls (trace : List Event) : List Call :=
  trace.filterMap Event.call

/-- The calls that are handed the runtime context or its address. -/
def Call.takes_context : Call → Bool
  | Call.init_for_run_config => true
  | Call.get_delegate => true
  | Call.close => true
  | _ => false

/-- The calls that follow the first occurrence of `c`. -/
def calls_after (c : Call) (calls : List Call) : List Call :=
  (calls.dropWhile (fun x => decide (x ≠ c))).tail

/-- A step that reports a failure through its return value, as tested by the
`if` that follows the call in the source. -/
def Event.failed : Event → Bool
  | Event.realpath _ resolved_path => resolved_path.isNone
  | Event.get_hostfxr_path rc => decide (rc ≠ 0)
  | Event.init_for_run_config _ rc context => decide (rc ≠ 0) || decide (context = 0)
  | Event.get_delegate _ rc delegate => decide (rc ≠ 0) || decide (delegate = 0)
  | Event.load_assembly_and_get_function_pointer _ _ _ rc entry =>
    decide (rc ≠ 0) || decide (entry = 0)
  | _ => false

/-- The call of `hostfxr_close`. -/
def Event.is_close : Event → Bool
  | Event.close _ => true
  | _ => false

/-- The call of the managed entry point. -/
def Event.is_entry_point : Event → Bool
  | Event.entry_point _ _ _ => true
  | _ => false

/-- An environment in which every step succeeds: the managed entry point
returns `csharp_exit_code` and `heap_after` follows the allocation of
`get_name_from_path`. -/
def env_ok (csharp_exit_code : Int) (heap_after : List Char) : Env :=
  { realpath := fun _ => some "/opt/host/nativehost".toList
    get_hostfxr_path := (0, "/usr/share/dotnet/host/fxr/libhostfxr.so".toList)
    dlopen := fun _ => 1
    dlsym := fun _ _ => 2
    hostfxr_initialize_for_runtime_config := fun _ => (0, 3)
    hostfxr_get_runtime_delegate := fun _ => (0, 4)
    load_assembly_and_get_function_pointer := fun _ _ _ => (0, 5)
    entry_point := fun _ _ => csharp_exit_code
    heap_after := heap_after }

/-- An argument vector with one forwarded argument. -/
def sample_argv : List (List Char) :=
  ["nativehost".toList, "/x/App.dll".toList, "Main".toList, "NS".toList, "Cls".toList,
   "a".toList]

/-! ## Lemmas on the string helpers -/

theorem find_last_from_none (path : List Char) (c : Char) :
    ∀ n, (∀ i, i < n → path[i]? ≠ some c) → find_last_from path c n = none := by
  intro n
  induction n with
  | zero => intro _; rfl
  | succ n ih =>
    intro h
    have hn : path[n]? ≠ some c := h n (Nat.lt_succ_self n)
    simp only [find_last_from, hn, if_false]
    exact ih (fun i hi => h i (Nat.lt_succ_of_lt hi))

theorem find_last_from_some (path : List Char) (c : Char) (k : Nat)
    (hk : path[k]? = some c) :
    ∀ n, k < n → (∀ j, k < j → j < n → path[j]? ≠ some c) →
      find_last_from path c n = some k := by
  intro n
  induction n with
  | zero => intro h; omega
  | succ n ih =>
    intro hlt hlast
    by_cases hkn : k = n
    · subst hkn
      simp [find_last_from, hk]
    · have hn : path[n]? ≠ some c := hlast n (by omega) (Nat.lt_succ_self n)
      simp only [find_last_from, hn, if_false]
      exact ih (by omega) (fun j h1 h2 => hlast j h1 (by omega))

theorem scan_dot_some (path : List Char) (k : Nat) (hk : path[k]? = some '.') :
    ∀ n, k < n → n ≤ path.length → (∀ j, k < j → j < n → path[j]? ≠ some '.') →
      scan_dot path n = some k := by
  intro n
  induction n with
  | zero => intro h; omega
  | succ n ih =>
    intro hlt hlen hlast
    by_cases hkn : k = n
    · subst hkn
      simp [scan_dot, hk]
    · have hn : path[n]? ≠ some '.' := hlast n (by omega) (Nat.lt_succ_self n)
      have hlt2 : n < path.length := by omega
      rw [List.getElem?_eq_getElem hlt2] at hn
      have hne : path[n] ≠ '.' := fun h => hn (by rw [h])
      simp only [scan_dot, List.getElem?_eq_getElem hlt2, ne_eq, hne, not_false_eq_true,
        if_true]
      exact ih (by omega) (by omega) (fun j h1 h2 => hlast j h1 (by omega))

theorem scan_dot_none (path : List Char) :
    ∀ n, (∀ i, i < n → path[i]? ≠ some '.') → scan_dot path n = none := by
  intro n
  induction n with
  | zero => intro _; rfl
  | succ n ih =>
    intro h
    have hn : path[n]? ≠ some '.' := h n (Nat.lt_succ_self n)
    cases hc : path[n]? with
    | none => simp [scan_dot, hc]
    | some c =>
      have hne : c ≠ '.' := fun hcc => hn (by rw [hc, hcc])
      simp only [scan_dot, hc, ne_eq, hne, not_false_eq_true, if_true]
      exact ih (fun i hi => h i (Nat.lt_succ_of_lt hi))

theorem scan_slash_some (path : List Char) (p : Nat) (hp : path[p]? = some '/') :
    ∀ n name_size, p < n → n ≤ path.length →
      (∀ j, p < j → j < n → path[j]? ≠ some '/') →
      scan_slash path n name_size = some (p, name_size + (n - 1 - p)) := by
  intro n
  induction n with
  | zero => intro _ h; omega
  | succ n ih =>
    intro name_size hlt hlen hlast
    by_cases hpn : p = n
    · subst hpn
      simp [scan_slash, hp, DIR_SEPARATOR]
    · have hn : path[n]? ≠ some '/' := hlast n (by omega) (Nat.lt_succ_self n)
      have hlt2 : n < path.length := by omega
      rw [List.getElem?_eq_getElem hlt2] at hn
      have hne : path[n] ≠ '/' := fun h => hn (by rw [h])
      simp only [scan_slash, List.getElem?_eq_getElem hlt2, ne_eq, DIR_SEPARATOR, hne,
        not_false_eq_true, if_true]
      rw [ih (name_size + 1) (by omega) (by omega) (fun j h1 h2 => hlast j h1 (by omega))]
      congr 2
      omega

theorem scan_slash_none (path : List Char) :
    ∀ n name_size, (∀ i, i < n → path[i]? ≠ some '/') →
      scan_slash path n name_size = none := by
  intro n
  induction n with
  | zero => intro _ _; rfl
  | succ n ih =>
    intro name_size h
    have hn : path[n]? ≠ some '/' := h n (Nat.lt_succ_self n)
    cases hc : path[n]? with
    | none => simp [scan_slash, hc]
    | some c =>
      have hne : c ≠ '/' := fun hcc => hn (by rw [hc, hcc])
      simp only [scan_slash, hc, ne_eq, DIR_SEPARATOR, hne, not_false_eq_true, if_true]
      exact ih (name_size + 1) (fun i hi => h i (Nat.lt_succ_of_lt hi))

theorem copy_name_eq (path : List Char) (ptr : Nat) :
    ∀ m, ptr + m + 1 ≤ path.length →
      copy_name path ptr m = some ((path.drop (ptr + 1)).take m) := by
  intro m
  induction m with
  | zero => intro _; simp [copy_name]
  | succ m ih =>
    intro h
    have hlt : ptr + m + 1 < path.length := by omega
    simp only [copy_name, ih (by omega), List.getElem?_eq_getElem hlt]
    congr 1
    rw [List.take_succ, List.getElem?_drop]
    have : ptr + 1 + m = ptr + m + 1 := by omega
    simp [this, List.getElem?_eq_getElem hlt]

theorem scan_dot_spec (path : List Char) (k : Nat) :
    ∀ n, scan_dot path n = some k →
      k < n ∧ path[k]? = some '.' ∧ ∀ j, k < j → j < n → path[j]? ≠ some '.' := by
  intro n
  induction n with
  | zero => intro h; simp [scan_dot] at h
  | succ n ih =>
    intro h
    cases hc : path[n]? with
    | none => simp [scan_dot, hc] at h
    | some c =>
      by_cases hne : c = '.'
      · simp only [scan_dot, hc, ne_eq, hne, not_true_eq_false, if_false,
          Option.some.injEq] at h
        subst h
        refine ⟨Nat.lt_succ_self _, by rw [hc, hne], ?_⟩
        intro j h1 h2
        omega
      · simp only [scan_dot, hc, ne_eq, hne, not_false_eq_true, if_true] at h
        obtain ⟨h1, h2, h3⟩ := ih h
        refine ⟨by omega, h2, ?_⟩
        intro j hj1 hj2
        by_cases hjn : j = n
        · subst hjn
          rw [hc]
          intro hcc
          exact hne (Option.some.inj hcc)
        · exact h3 j hj1 (by omega)

theorem scan_slash_spec (path : List Char) (p size : Nat) :
    ∀ n name_size, scan_slash path n name_size = some (p, size) →
      p < n ∧ path[p]? = some '/' ∧ size = name_size + (n - 1 - p) := by
  intro n
  induction n with
  | zero => intro _ h; simp [scan_slash] at h
  | succ n ih =>
    intro name_size h
    cases hc : path[n]? with
    | none => simp [scan_slash, hc] at h
    | some c =>
      by_cases hne : c = '/'
      · simp only [scan_slash, hc, ne_eq, DIR_SEPARATOR, hne, not_true_eq_false, if_false,
          Option.some.injEq, Prod.mk.injEq] at h
        obtain ⟨h1, h2⟩ := h
        subst h1
        refine ⟨Nat.lt_succ_self _, by rw [hc, hne], ?_⟩
        omega
      · simp only [scan_slash, hc, ne_eq, DIR_SEPARATOR, hne, not_false_eq_true,
          if_true] at h
        obtain ⟨h1, h2, h3⟩ := ih (name_size + 1) h
        exact ⟨by omega, h2, by omega⟩

theorem scan_slash_none_spec (path : List Char) :
    ∀ n name_size, n ≤ path.length → scan_slash path n name_size = none →
      ∀ i, i < n → path[i]? ≠ some '/' := by
  intro n
  induction n with
  | zero => intro _ _ _ i hi; omega
  | succ n ih =>
    intro name_size hlen h i hi
    have hlt : n < path.length := by omega
    by_cases hne : path[n] = '/'
    · simp [scan_slash, List.getElem?_eq_getElem hlt, DIR_SEPARATOR, hne] at h
    · simp only [scan_slash, List.getElem?_eq_getElem hlt, ne_eq, DIR_SEPARATOR, hne,
        not_false_eq_true, if_true] at h
      by_cases hin : i = n
      · subst hin
        rw [List.getElem?_eq_getElem hlt]
        intro hcc
        exact hne (Option.some.inj hcc)
      · exact ih (name_size + 1) (by omega) h i (by omega)

theorem getElem?_append_add (a b : List Char) (i : Nat) :
    (a ++ b)[a.length + i]? = b[i]? := by
  rw [List.getElem?_append_right (Nat.le_add_right _ _), Nat.add_sub_cancel_left]

/-- The name between the last separator and the last dot is what
`get_name_from_path` copies into its allocation. -/
theorem get_name_from_path_cons (d n e : List Char)
    (hn : '/' ∉ n) (he : '.' ∉ e) :
    get_name_from_path (d ++ '/' :: (n ++ '.' :: e)) = some n := by
  have hlen : (d ++ '/' :: (n ++ '.' :: e)).length = d.length + (1 + (n.length + (1 + e.length))) := by
    simp; omega
  have hdot : (d ++ '/' :: (n ++ '.' :: e))[d.length + (1 + (n.length + 0))]? = some '.' := by
    rw [getElem?_append_add, Nat.add_comm 1, List.getElem?_cons_succ]
    exact (getElem?_append_add n ('.' :: e) 0).trans List.getElem?_cons_zero
  have hlast : ∀ j, d.length + (1 + (n.length + 0)) < j →
      j < (d ++ '/' :: (n ++ '.' :: e)).length →
      (d ++ '/' :: (n ++ '.' :: e))[j]? ≠ some '.' := by
    intro j h1 h2 hj
    obtain ⟨i, rfl⟩ : ∃ i, j = d.length + (1 + (n.length + (1 + i))) := ⟨j - d.length - n.length - 2, by omega⟩
    rw [getElem?_append_add, Nat.add_comm 1, List.getElem?_cons_succ, getElem?_append_add,
      Nat.add_comm 1, List.getElem?_cons_succ] at hj
    exact he (List.getElem?_mem hj)
  have hsep : (d ++ '/' :: (n ++ '.' :: e))[d.length + 0]? = some '/' := by
    rw [getElem?_append_add]
    simp
  have hnosep : ∀ j, d.length + 0 < j → j < d.length + (1 + (n.length + 0)) →
      (d ++ '/' :: (n ++ '.' :: e))[j]? ≠ some '/' := by
    intro j h1 h2 hj
    obtain ⟨i, rfl⟩ : ∃ i, j = d.length + (1 + i) := ⟨j - d.length - 1, by omega⟩
    rw [getElem?_append_add, Nat.add_comm 1, List.getElem?_cons_succ,
      List.getElem?_append_left (by omega)] at hj
    exact hn (List.getElem?_mem hj)
  unfold get_name_from_path
  rw [scan_dot_some _ _ hdot _ (by omega) (le_refl _) hlast]
  simp only
  rw [scan_slash_some _ _ hsep _ 0 (by omega) (by omega) hnosep]
  simp only
  rw [copy_name_eq _ _ _ (by omega)]
  congr 1
  have h1 : d ++ '/' :: (n ++ '.' :: e) = (d ++ ['/']) ++ (n ++ '.' :: e) := by simp
  have h2 : d.length + 0 + 1 = (d ++ ['/']).length := by simp
  have h3 : 0 + (d.length + (1 + (n.length + 0)) - 1 - (d.length + 0)) = n.length := by omega
  rw [h1, h2, List.drop_left, h3, List.take_left]

/-- When both scans of `get_name_from_path` end inside the string, the copy
loop reads inside it too. -/
theorem copy_after_scans (path : List Char) (k p size : Nat)
    (hk : scan_dot path path.length = some k)
    (hp : scan_slash path k 0 = some (p, size)) :
    get_name_from_path path = some ((path.drop (p + 1)).take size) := by
  obtain ⟨hk1, _, _⟩ := scan_dot_spec path k _ hk
  obtain ⟨hp1, _, hp3⟩ := scan_slash_spec path p size _ _ hp
  unfold get_name_from_path
  rw [hk]
  simp only
  rw [hp]
  simp only
  exact copy_name_eq path p size (by omega)

/-! ## Lemmas on the call sequence -/

theorem getLast?_cons_append_concat (a e : Event) (pre mid : List Event) :
    (a :: (pre ++ (mid ++ [e]))).getLast? = some e := by
  have h : a :: (pre ++ (mid ++ [e])) = (a :: (pre ++ mid)) ++ [e] := by simp
  rw [h]
  exact List.getLast?_concat _

theorem load_hostfxr_rc (env : Env) (h : env.get_hostfxr_path.1 ≠ 0) :
    load_hostfxr env = ([Event.get_hostfxr_path env.get_hostfxr_path.1], some false) := by
  rcases hg : env.get_hostfxr_path with ⟨rc, buffer⟩
  rw [hg] at h
  simp only at h
  simp [load_hostfxr, hg, h]

theorem load_hostfxr_true (env : Env) (hrc : env.get_hostfxr_path.1 = 0)
    (hlib : env.dlopen env.get_hostfxr_path.2 ≠ 0)
    (hexp : ∀ name ∈ hostfxr_exports,
      env.dlsym (env.dlopen env.get_hostfxr_path.2) name ≠ 0) :
    (load_hostfxr env).2 = some true := by
  rcases hg : env.get_hostfxr_path with ⟨rc, buffer⟩
  rw [hg] at hrc hlib hexp
  simp only at hrc hlib hexp
  simp only [hostfxr_exports, List.mem_cons, List.mem_singleton, List.not_mem_nil, or_false,
    forall_eq_or_imp, forall_eq] at hexp
  obtain ⟨h1, h2, h3, h4, h5⟩ := hexp
  simp only [load_hostfxr, load_library, get_export, hg, hrc, ne_eq, hlib, h1, h2, h3, h4, h5,
    not_true_eq_false, not_false_eq_true, if_true, if_false, decide_True, Bool.and_self]

theorem load_hostfxr_abort (env : Env) (hrc : env.get_hostfxr_path.1 = 0)
    (h : env.dlopen env.get_hostfxr_path.2 = 0 ∨
      ∃ name ∈ hostfxr_exports, env.dlsym (env.dlopen env.get_hostfxr_path.2) name = 0) :
    (load_hostfxr env).2 = none := by
  rcases hg : env.get_hostfxr_path with ⟨rc, buffer⟩
  rw [hg] at hrc h
  simp only at hrc h
  simp only [hostfxr_exports, List.mem_cons, List.mem_singleton, List.not_mem_nil, or_false,
    exists_eq_or_imp, exists_eq_left] at h
  by_cases hl : env.dlopen buffer = 0 <;>
  by_cases h1 : env.dlsym (env.dlopen buffer)
    "hostfxr_initialize_for_dotnet_command_line".toList = 0 <;>
  by_cases h2 : env.dlsym (env.dlopen buffer)
    "hostfxr_initialize_for_runtime_config".toList = 0 <;>
  by_cases h3 : env.dlsym (env.dlopen buffer) "hostfxr_get_runtime_delegate".toList = 0 <;>
  by_cases h4 : env.dlsym (env.dlopen buffer) "hostfxr_run_app".toList = 0 <;>
  by_cases h5 : env.dlsym (env.dlopen buffer) "hostfxr_close".toList = 0 <;>
  simp only [load_hostfxr, load_library, get_export, hg, hrc, ne_eq, hl, h1, h2, h3, h4, h5,
    not_true_eq_false, not_false_eq_true, if_true, if_false]
  simp only [hl, h1, h2, h3, h4, h5, or_self] at h

theorem run_csharp_app_loaded (env : Env) (host : List Char) (app_data : csharp_app_data)
    (h : (load_hostfxr env).2 = some true) :
    run_csharp_app env host app_data =
      ((load_hostfxr env).1 ++ (run_loaded env app_data).1, (run_loaded env app_data).2) := by
  rcases hl : load_hostfxr env with ⟨t, r⟩
  rw [hl] at h
  simp only at h
  subst h
  simp [run_csharp_app, hl]

theorem run_csharp_app_not_loaded (env : Env) (host : List Char) (app_data : csharp_app_data)
    (h : (load_hostfxr env).2 = some false) :
    run_csharp_app env host app_data = ((load_hostfxr env).1, Outcome.ret (-1)) := by
  rcases hl : load_hostfxr env with ⟨t, r⟩
  rw [hl] at h
  simp only at h
  subst h
  simp [run_csharp_app, hl]

theorem run_csharp_app_abort (env : Env) (host : List Char) (app_data : csharp_app_data)
    (h : (load_hostfxr env).2 = none) :
    run_csharp_app env host app_data = ((load_hostfxr env).1, Outcome.abort) := by
  rcases hl : load_hostfxr env with ⟨t, r⟩
  rw [hl] at h
  simp only at h
  subst h
  simp [run_csharp_app, hl]

theorem main_resolved (env : Env) (argv0 argv1 argv2 argv3 argv4 host_path : List Char)
    (rest : List (List Char)) (h : env.realpath argv0 = some host_path) :
    main env (argv0 :: argv1 :: argv2 :: argv3 :: argv4 :: rest) =
      (Event.realpath argv0 (some host_path) ::
        (run_csharp_app env (truncate_host_path host_path)
          (make_app_data argv1 argv2 argv3 argv4 rest)).1,
       (run_csharp_app env (truncate_host_path host_path)
          (make_app_data argv1 argv2 argv3 argv4 rest)).2) := by
  simp [main, h]

theorem load_hostfxr_events (env : Env) :
    ∀ e ∈ (load_hostfxr env).1,
      e.call = none ∧ e.is_entry_point = false ∧
        (e.failed = true → env.get_hostfxr_path.1 ≠ 0) := by
  rcases hg : env.get_hostfxr_path with ⟨rc, buffer⟩
  by_cases hrc : rc = 0
  on_goal 1 => by_cases hl : env.dlopen buffer = 0
  on_goal 2 => by_cases h1 : env.dlsym (env.dlopen buffer) "hostfxr_initialize_for_dotnet_command_line".toList = 0
  on_goal 3 => by_cases h2 : env.dlsym (env.dlopen buffer) "hostfxr_initialize_for_runtime_config".toList = 0
  on_goal 4 => by_cases h3 : env.dlsym (env.dlopen buffer) "hostfxr_get_runtime_delegate".toList = 0
  on_goal 5 => by_cases h4 : env.dlsym (env.dlopen buffer) "hostfxr_run_app".toList = 0
  on_goal 6 => by_cases h5 : env.dlsym (env.dlopen buffer) "hostfxr_close".toList = 0
  all_goals
    simp only [load_hostfxr, load_library, get_export, *, ne_eq,
      not_true_eq_false, not_false_eq_true, if_true, if_false, List.append_assoc,
      List.singleton_append, List.cons_append, List.nil_append, List.mem_singleton,
      List.mem_cons, forall_eq_or_imp, forall_eq, Event.call, Event.is_entry_point,
      Event.failed, decide_True, decide_False, Bool.false_eq_true, false_implies, imp_self,
      and_self, List.not_mem_nil, implies_true, and_true]

theorem hosting_calls_load_hostfxr (env : Env) : hosting_calls (load_hostfxr env).1 = [] := by
  unfold hosting_calls
  rw [List.filterMap_eq_nil_iff]
  intro e he
  exact (load_hostfxr_events env e he).1

theorem run_loaded_init_failed (env : Env) (app_data : csharp_app_data)
    (hi : step_failed (init_result env app_data)) :
    run_loaded env app_data =
      ([Event.init_for_run_config (app_config_path app_data) (init_result env app_data).1
          (init_result env app_data).2,
        Event.close (init_result env app_data).2], Outcome.ret (-1)) := by
  unfold step_failed init_result at hi
  unfold init_result
  rcases hx : env.hostfxr_initialize_for_runtime_config (app_config_path app_data)
    with ⟨rc, context⟩
  rw [hx] at hi
  simp only at hi
  simp only [run_loaded, hx, hi, if_true, List.cons_append, List.nil_append]

theorem run_loaded_delegate_failed (env : Env) (app_data : csharp_app_data)
    (hi : ¬ step_failed (init_result env app_data))
    (hd : step_failed (delegate_result env app_data)) :
    run_loaded env app_data = (context_events env app_data, Outcome.ret (-1)) := by
  unfold step_failed delegate_result init_result at hd
  unfold step_failed init_result at hi
  unfold context_events delegate_result init_result
  rcases hx : env.hostfxr_initialize_for_runtime_config (app_config_path app_data)
    with ⟨rc, context⟩
  rw [hx] at hi hd
  simp only at hi hd
  rcases hy : env.hostfxr_get_runtime_delegate context with ⟨rc2, delegate⟩
  rw [hy] at hd
  simp only at hd
  simp only [run_loaded, hx, hy, hi, hd, if_true, if_false, List.cons_append, List.nil_append]

theorem run_loaded_out_of_bounds (env : Env) (app_data : csharp_app_data)
    (hi : ¬ step_failed (init_result env app_data))
    (hd : ¬ step_failed (delegate_result env app_data))
    (hn : get_name_from_path app_data.path = none) :
    run_loaded env app_data = (context_events env app_data, Outcome.out_of_bounds) := by
  unfold step_failed delegate_result init_result at hd
  unfold step_failed init_result at hi
  unfold context_events delegate_result init_result
  rcases hx : env.hostfxr_initialize_for_runtime_config (app_config_path app_data)
    with ⟨rc, context⟩
  rw [hx] at hi hd
  simp only at hi hd
  rcases hy : env.hostfxr_get_runtime_delegate context with ⟨rc2, delegate⟩
  rw [hy] at hd
  simp only at hd
  simp only [run_loaded, hx, hy, hi, hd, hn, if_false, List.cons_append, List.nil_append]

theorem run_loaded_entry_failed (env : Env) (app_data : csharp_app_data) (name : List Char)
    (hi : ¬ step_failed (init_result env app_data))
    (hd : ¬ step_failed (delegate_result env app_data))
    (hn : get_name_from_path app_data.path = some name)
    (he : step_failed (entry_result env app_data name)) :
    run_loaded env app_data =
      (context_events env app_data ++ [entry_event env app_data name], Outcome.ret (-1)) := by
  unfold step_failed delegate_result init_result at hd
  unfold step_failed init_result at hi
  unfold step_failed entry_result at he
  unfold context_events entry_event entry_result delegate_result init_result
  rcases hx : env.hostfxr_initialize_for_runtime_config (app_config_path app_data)
    with ⟨rc, context⟩
  rw [hx] at hi hd
  simp only at hi hd
  rcases hy : env.hostfxr_get_runtime_delegate context with ⟨rc2, delegate⟩
  rw [hy] at hd
  simp only at hd
  rcases hz : env.load_assembly_and_get_function_pointer app_data.path
    (dotnet_type app_data.mnamespace app_data.mclass name env.heap_after)
    app_data.entry_point with ⟨rc3, entry⟩
  rw [hz] at he
  simp only at he
  simp only [run_loaded, hx, hy, hz, hi, hd, hn, he, if_true, if_false, List.cons_append,
    List.nil_append]

theorem run_loaded_ok (env : Env) (app_data : csharp_app_data) (name : List Char)
    (hi : ¬ step_failed (init_result env app_data))
    (hd : ¬ step_failed (delegate_result env app_data))
    (hn : get_name_from_path app_data.path = some name)
    (he : ¬ step_failed (entry_result env app_data name)) :
    run_loaded env app_data =
      (context_events env app_data ++ [entry_event env app_data name,
        Event.entry_point none 0 (env.entry_point none 0)],
       Outcome.ret (env.entry_point none 0)) := by
  unfold step_failed delegate_result init_result at hd
  unfold step_failed init_result at hi
  unfold step_failed entry_result at he
  unfold context_events entry_event entry_result delegate_result init_result
  rcases hx : env.hostfxr_initialize_for_runtime_config (app_config_path app_data)
    with ⟨rc, context⟩
  rw [hx] at hi hd
  simp only at hi hd
  rcases hy : env.hostfxr_get_runtime_delegate context with ⟨rc2, delegate⟩
  rw [hy] at hd
  simp only at hd
  rcases hz : env.load_assembly_and_get_function_pointer app_data.path
    (dotnet_type app_data.mnamespace app_data.mclass name env.heap_after)
    app_data.entry_point with ⟨rc3, entry⟩
  rw [hz] at he
  simp only at he
  simp only [run_loaded, hx, hy, hz, hi, hd, hn, he, if_false, List.cons_append,
    List.nil_append]

theorem hosting_calls_run_csharp_app (env : Env) (host : List Char)
    (app_data : csharp_app_data) (hload : (load_hostfxr env).2 = some true) :
    hosting_calls (run_csharp_app env host app_data).1 =
      hosting_calls (run_loaded env app_data).1 := by
  rw [run_csharp_app_loaded env host app_data hload]
  simp only [hosting_calls, List.filterMap_append]
  have h := hosting_calls_load_hostfxr env
  unfold hosting_calls at h
  rw [h, List.nil_append]

theorem failed_pair (rc : Int) (ptr : Nat) :
    (decide (rc ≠ 0) || decide (ptr = 0)) = true ↔ step_failed (rc, ptr) := by
  simp [step_failed]

/-- A failed step inside the part of `run_csharp_app` after `load_hostfxr`
ends the run with -1; only `hostfxr_close` follows it, and the entry point is
not called. -/
theorem run_loaded_failure (env : Env) (app_data : csharp_app_data) (e : Event)
    (he : e ∈ (run_loaded env app_data).1) (hf : e.failed = true) :
    (run_loaded env app_data).2 = Outcome.ret (-1) ∧
    (∃ pre post, (run_loaded env app_data).1 = pre ++ e :: post ∧
      ∀ x ∈ post, x.is_close = true) ∧
    ∀ x ∈ (run_loaded env app_data).1, x.is_entry_point = false := by
  by_cases hi : step_failed (init_result env app_data)
  · rw [run_loaded_init_failed env app_data hi] at he ⊢
    simp only [List.mem_cons, List.mem_singleton, List.not_mem_nil, or_false] at he
    rcases he with rfl | rfl
    · refine ⟨rfl, ⟨[], [Event.close (init_result env app_data).2], rfl, ?_⟩, ?_⟩
      · intro x hx
        simp only [List.mem_singleton] at hx
        subst hx
        rfl
      · intro x hx
        simp only [List.mem_cons, List.mem_singleton, List.not_mem_nil, or_false] at hx
        rcases hx with rfl | rfl <;> rfl
    · simp [Event.failed] at hf
  · by_cases hd : step_failed (delegate_result env app_data)
    · rw [run_loaded_delegate_failed env app_data hi hd] at he ⊢
      simp only [context_events, List.mem_cons, List.mem_singleton, List.not_mem_nil,
        or_false] at he
      rcases he with rfl | rfl | rfl
      · exact absurd ((failed_pair _ _).mp hf) hi
      · refine ⟨rfl, ⟨[Event.init_for_run_config (app_config_path app_data)
          (init_result env app_data).1 (init_result env app_data).2],
          [Event.close (init_result env app_data).2], rfl, ?_⟩, ?_⟩
        · intro x hx
          simp only [List.mem_singleton] at hx
          subst hx
          rfl
        · intro x hx
          simp only [context_events, List.mem_cons, List.mem_singleton, List.not_mem_nil,
            or_false] at hx
          rcases hx with rfl | rfl | rfl <;> rfl
      · simp [Event.failed] at hf
    · cases hn : get_name_from_path app_data.path with
      | none =>
        rw [run_loaded_out_of_bounds env app_data hi hd hn] at he
        simp only [context_events, List.mem_cons, List.mem_singleton, List.not_mem_nil,
          or_false] at he
        rcases he with rfl | rfl | rfl
        · exact absurd ((failed_pair _ _).mp hf) hi
        · exact absurd ((failed_pair _ _).mp hf) hd
        · simp [Event.failed] at hf
      | some name =>
        by_cases hl : step_failed (entry_result env app_data name)
        · rw [run_loaded_entry_failed env app_data name hi hd hn hl] at he ⊢
          simp only [context_events, entry_event, List.mem_cons, List.mem_singleton,
            List.mem_append, List.not_mem_nil, or_false] at he
          rcases he with (rfl | rfl | rfl) | rfl
          · exact absurd ((failed_pair _ _).mp hf) hi
          · exact absurd ((failed_pair _ _).mp hf) hd
          · simp [Event.failed] at hf
          · refine ⟨rfl, ⟨context_events env app_data, [], rfl, ?_⟩, ?_⟩
            · intro x hx
              simp at hx
            · intro x hx
              simp only [context_events, entry_event, List.mem_cons, List.mem_singleton,
                List.mem_append, List.not_mem_nil, or_false] at hx
              rcases hx with (rfl | rfl | rfl) | rfl <;> rfl
        · rw [run_loaded_ok env app_data name hi hd hn hl] at he
          simp only [context_events, entry_event, List.mem_cons, List.mem_singleton,
            List.mem_append, List.not_mem_nil, or_false] at he
          rcases he with (rfl | rfl | rfl) | rfl | rfl
          · exact absurd ((failed_pair _ _).mp hf) hi
          · exact absurd ((failed_pair _ _).mp hf) hd
          · simp [Event.failed] at hf
          · exact absurd ((failed_pair _ _).mp hf) hl
          · simp [Event.failed] at hf

theorem close_once (calls : List Call)
    (h : calls = [Call.init_for_run_config, Call.close] ∨
      calls = [Call.init_for_run_config, Call.get_delegate, Call.close] ∨
      calls = [Call.init_for_run_config, Call.get_delegate, Call.close,
        Call.load_assembly_and_get_function_pointer] ∨
      calls = [Call.init_for_run_config, Call.get_delegate, Call.close,
        Call.load_assembly_and_get_function_pointer, Call.entry_point]) :
    calls.count Call.close = 1 ∧
      ∀ c ∈ calls_after Call.close calls, c.takes_context = false := by
  rcases h with rfl | rfl | rfl | rfl <;> decide

/-! ## The claims -/

/-- C10: the two backward scans of `get_name_from_path` end inside the path
exactly when the path has a `.` and a `/` at an index before its last `.`; for
every other path one of the scans runs past the start of the string, which is
the `none` branch, as for the bare file name `App.dll` and for a path without
a dot. -/
theorem get_name_from_path_in_bounds_iff (path : List Char) :
    ((get_name_from_path path).isSome = true ↔
      ∃ k i : Nat, i < k ∧ path[k]? = some '.' ∧ (∀ j : Nat, k < j → path[j]? ≠ some '.') ∧
        path[i]? = some '/') ∧
    (get_name_from_path path = none ↔
      scan_dot path path.length = none ∨
        ∃ k, scan_dot path path.length = some k ∧ scan_slash path k 0 = none) ∧
    get_name_from_path "App.dll".toList = none ∧
    get_name_from_path "/x/App".toList = none := by
  refine ⟨⟨?_, ?_⟩, ⟨?_, ?_⟩, by decide, by decide⟩
  · intro h
    cases h1 : scan_dot path path.length with
    | none => simp [get_name_from_path, h1] at h
    | some k =>
      cases h2 : scan_slash path k 0 with
      | none => simp [get_name_from_path, h1, h2] at h
      | some r =>
        obtain ⟨p, size⟩ := r
        obtain ⟨hk1, hk2, hk3⟩ := scan_dot_spec path k _ h1
        obtain ⟨hp1, hp2, _⟩ := scan_slash_spec path p size _ _ h2
        refine ⟨k, p, hp1, hk2, ?_, hp2⟩
        intro j hj
        by_cases hlt : j < path.length
        · exact hk3 j hj hlt
        · rw [List.getElem?_eq_none (by omega)]
          simp
  · rintro ⟨k, i, hik, hk, hlast, hi⟩
    have hklt : k < path.length := by
      obtain ⟨h, _⟩ := List.getElem?_eq_some.mp hk
      exact h
    have h1 := scan_dot_some path k hk path.length hklt (le_refl _)
      (fun j hj _ => hlast j hj)
    cases h2 : scan_slash path k 0 with
    | none => exact absurd hi (scan_slash_none_spec path k 0 (by omega) h2 i hik)
    | some r =>
      obtain ⟨p, size⟩ := r
      rw [copy_after_scans path k p size h1 h2]
      rfl
  · intro h
    cases h1 : scan_dot path path.length with
    | none => exact Or.inl rfl
    | some k =>
      cases h2 : scan_slash path k 0 with
      | none => exact Or.inr ⟨k, rfl, h2⟩
      | some r =>
        obtain ⟨p, size⟩ := r
        rw [copy_after_scans path k p size h1 h2] at h
        exact absurd h (by simp)
  · rintro (h | ⟨k, h1, h2⟩)
    · simp [get_name_from_path, h]
    · simp [get_name_from_path, h1, h2]


/-- C6: `trim_extension` returns a string without `.` unchanged and otherwise
the prefix before the last `.`; so for the assembly path `b ++ "." ++ e`, with
no `.` in `e`, the first call of `run_csharp_app` after a successful
`load_hostfxr` is `hostfxr_initialize_for_runtime_config` with the path
`b ++ ".runtimeconfig.json"`. -/
theorem trim_extension_config_path (b e : List Char) (he : '.' ∉ e) :
    trim_extension e = e ∧
    trim_extension (b ++ ".".toList ++ e) = b ∧
    ∀ (env : Env) (host : List Char) (app_data : csharp_app_data),
      app_data.path = b ++ ".".toList ++ e → (load_hostfxr env).2 = some true →
      app_config_path app_data = b ++ ".runtimeconfig.json".toList ∧
      ∃ rc context rest, (run_csharp_app env host app_data).1 =
        (load_hostfxr env).1 ++
          Event.init_for_run_config (b ++ ".runtimeconfig.json".toList) rc context :: rest := by
  have h1 : trim_extension e = e := by
    unfold trim_extension find_last_of
    rw [find_last_from_none e '.' e.length (fun i _ hi => he (List.getElem?_mem hi))]
    rfl
  have h2 : trim_extension (b ++ ".".toList ++ e) = b := by
    have hform : b ++ ".".toList ++ e = b ++ '.' :: e := by simp
    rw [hform]
    unfold trim_extension find_last_of
    have hk : (b ++ '.' :: e)[b.length]? = some '.' := by
      exact (getElem?_append_add b ('.' :: e) 0).trans List.getElem?_cons_zero
    have hlast : ∀ j, b.length < j → j < (b ++ '.' :: e).length →
        (b ++ '.' :: e)[j]? ≠ some '.' := by
      intro j hj _ hdot
      obtain ⟨i, rfl⟩ : ∃ i, j = b.length + (i + 1) := ⟨j - b.length - 1, by omega⟩
      rw [getElem?_append_add, List.getElem?_cons_succ] at hdot
      exact he (List.getElem?_mem hdot)
    rw [find_last_from_some _ '.' b.length hk _ (by simp) hlast]
    simp [substr0]
  refine ⟨h1, h2, ?_⟩
  intro env host app_data hpath hload
  have hcfg : app_config_path app_data = b ++ ".runtimeconfig.json".toList := by
    simp only [app_config_path, hpath, h2]
  refine ⟨hcfg, ?_⟩
  rw [run_csharp_app_loaded env host app_data hload]
  rcases hi : env.hostfxr_initialize_for_runtime_config (app_config_path app_data)
    with ⟨rc, context⟩
  refine ⟨rc, context, ((run_loaded env app_data).1).tail, ?_⟩
  simp only
  congr 1
  rw [← hcfg]
  unfold run_loaded
  rw [hi]
  simp only
  split_ifs
  · rfl
  · rfl
  · cases get_name_from_path app_data.path with
    | none => rfl
    | some name =>
      simp only
      split_ifs <;> rfl

theorem trim_extension_config_path_witness :
    '.' ∉ "dll".toList ∧ trim_extension "dll".toList = "dll".toList ∧
    trim_extension ("/x/My.App".toList ++ ".".toList ++ "dll".toList) = "/x/My.App".toList :=
  ⟨by decide,
   (trim_extension_config_path "/x/My.App".toList "dll".toList (by decide)).1,
   (trim_extension_config_path "/x/My.App".toList "dll".toList (by decide)).2.1⟩

/-- C1: with `argc >= 5` (the argument vector is `argv0 :: ... :: argv4 :: rest`),
when `realpath` succeeds, `get_hostfxr_path` returns 0, the library and its
five exports load, initialization returns 0 with a non-null context, delegate
retrieval returns 0 with a non-null delegate, and the call of
`load_assembly_and_get_function_pointer` that `run_csharp_app` makes (with the
type name built from the result of `get_name_from_path`) returns 0 with a
non-null entry pointer, `main` returns the value `r` that the managed entry
point returns, whatever `r` is, and the call of the entry point is the last
event of the run. -/
theorem main_returns_entry_value (env : Env)
    (argv0 argv1 argv2 argv3 argv4 : List Char) (rest : List (List Char))
    (host_path name : List Char) (context delegate entry : Nat) (r : Int)
    (hreal : env.realpath argv0 = some host_path)
    (hfxr : env.get_hostfxr_path.1 = 0)
    (hlib : env.dlopen env.get_hostfxr_path.2 ≠ 0)
    (hexp : ∀ export_name ∈ hostfxr_exports,
      env.dlsym (env.dlopen env.get_hostfxr_path.2) export_name ≠ 0)
    (hinit : env.hostfxr_initialize_for_runtime_config
      (trim_extension argv1 ++ ".runtimeconfig.json".toList) = (0, context))
    (hcontext : context ≠ 0)
    (hdelegate : env.hostfxr_get_runtime_delegate context = (0, delegate))
    (hdelegate0 : delegate ≠ 0)
    (hname : get_name_from_path argv1 = some name)
    (hentry : env.load_assembly_and_get_function_pointer argv1
      (dotnet_type argv3 argv4 name env.heap_after) argv2 = (0, entry))
    (hentry0 : entry ≠ 0)
    (hr : env.entry_point none 0 = r) :
    (main env (argv0 :: argv1 :: argv2 :: argv3 :: argv4 :: rest)).2 = Outcome.ret r ∧
    (main env (argv0 :: argv1 :: argv2 :: argv3 :: argv4 :: rest)).1.getLast? =
      some (Event.entry_point none 0 r) := by
  have hload := load_hostfxr_true env hfxr hlib hexp
  rw [main_resolved env argv0 argv1 argv2 argv3 argv4 host_path rest hreal,
    run_csharp_app_loaded env _ _ hload]
  have hrun : run_loaded env (make_app_data argv1 argv2 argv3 argv4 rest) =
      ([Event.init_for_run_config (trim_extension argv1 ++ ".runtimeconfig.json".toList) 0 context,
        Event.get_delegate context 0 delegate, Event.close context,
        Event.load_assembly_and_get_function_pointer argv1
          (dotnet_type argv3 argv4 name env.heap_after) argv2 0 entry,
        Event.entry_point none 0 r], Outcome.ret r) := by
    simp only [run_loaded, app_config_path, make_app_data, hinit, hcontext, hdelegate,
      hdelegate0, hname, hentry, hentry0, hr, ne_eq, not_true_eq_false, or_self, if_false,
      List.cons_append, List.nil_append]
  rw [hrun]
  refine ⟨rfl, ?_⟩
  exact getLast?_cons_append_concat _ _ _
    [Event.init_for_run_config (trim_extension argv1 ++ ".runtimeconfig.json".toList) 0 context,
      Event.get_delegate context 0 delegate, Event.close context,
      Event.load_assembly_and_get_function_pointer argv1
        (dotnet_type argv3 argv4 name env.heap_after) argv2 0 entry]

theorem main_returns_entry_value_witness :
    (main (env_ok (-1) []) sample_argv).2 = Outcome.ret (-1) ∧
    (main (env_ok (-1) []) sample_argv).1.getLast? = some (Event.entry_point none 0 (-1)) :=
  main_returns_entry_value (env_ok (-1) []) "nativehost".toList "/x/App.dll".toList
    "Main".toList "NS".toList "Cls".toList ["a".toList] "/opt/host/nativehost".toList
    "App".toList 3 4 5 (-1) rfl rfl (by decide) (fun _ _ => Nat.succ_ne_zero 1) rfl
    (by decide) rfl
    (by decide) (by decide) rfl (by decide) rfl

/-- C3 as the code has it: with `argc >= 5`, `realpath` successful and
`get_hostfxr_path` returning 0, when `dlopen` returns null or `dlsym` returns
null for one of the five exports, the assertion in `load_library` or
`get_export` fails: `load_hostfxr` returns no value and the process aborts
instead of exiting with a code. -/
theorem main_aborts_on_load_failure (env : Env)
    (argv0 argv1 argv2 argv3 argv4 : List Char) (rest : List (List Char))
    (host_path : List Char)
    (hreal : env.realpath argv0 = some host_path)
    (hfxr : env.get_hostfxr_path.1 = 0)
    (hfail : env.dlopen env.get_hostfxr_path.2 = 0 ∨
      ∃ export_name ∈ hostfxr_exports,
        env.dlsym (env.dlopen env.get_hostfxr_path.2) export_name = 0) :
    (load_hostfxr env).2 = none ∧
    (main env (argv0 :: argv1 :: argv2 :: argv3 :: argv4 :: rest)).2 = Outcome.abort := by
  have hload := load_hostfxr_abort env hfxr hfail
  refine ⟨hload, ?_⟩
  rw [main_resolved env argv0 argv1 argv2 argv3 argv4 host_path rest hreal,
    run_csharp_app_abort env _ _ hload]

theorem main_aborts_on_load_failure_witness :
    (load_hostfxr { env_ok 0 [] with dlsym := fun _ export_name =>
      if export_name = "hostfxr_run_app".toList then 0 else 2 }).2 = none ∧
    (main { env_ok 0 [] with dlsym := fun _ export_name =>
      if export_name = "hostfxr_run_app".toList then 0 else 2 } sample_argv).2 =
      Outcome.abort :=
  main_aborts_on_load_failure _ "nativehost".toList "/x/App.dll".toList
    "Main".toList "NS".toList "Cls".toList ["a".toList] "/opt/host/nativehost".toList
    rfl rfl (Or.inr ⟨"hostfxr_run_app".toList, by decide, by decide⟩)

/-- C3 fails as stated: when `dlopen` returns null the process does not exit
with code -1, `load_hostfxr` does not return `false`; the assertion in
`load_library` aborts the process. -/
theorem exit_code_on_dlopen_failure :
    (main { env_ok 0 [] with dlopen := fun _ => 0 } sample_argv).2 = Outcome.abort ∧
    (main { env_ok 0 [] with dlopen := fun _ => 0 } sample_argv).2 ≠ Outcome.ret (-1) ∧
    (load_hostfxr { env_ok 0 [] with dlopen := fun _ => 0 }).2 ≠ some false := by
  decide

/-- C2: with `argc >= 5`, when a step that reports through its return value
fails during the run (`realpath` returns null, `get_hostfxr_path` returns
nonzero, or initialization, delegate retrieval or entry-point retrieval returns
nonzero or leaves its pointer null), `main` returns -1, the failed step is the
last step of the run (nothing follows it but the `hostfxr_close` of the error
path), and the managed entry point is never called. -/
theorem main_failure (env : Env)
    (argv0 argv1 argv2 argv3 argv4 : List Char) (rest : List (List Char)) (e : Event)
    (he : e ∈ (main env (argv0 :: argv1 :: argv2 :: argv3 :: argv4 :: rest)).1)
    (hf : e.failed = true) :
    (main env (argv0 :: argv1 :: argv2 :: argv3 :: argv4 :: rest)).2 = Outcome.ret (-1) ∧
    (∃ pre post,
      (main env (argv0 :: argv1 :: argv2 :: argv3 :: argv4 :: rest)).1 = pre ++ e :: post ∧
      ∀ x ∈ post, x.is_close = true) ∧
    ∀ x ∈ (main env (argv0 :: argv1 :: argv2 :: argv3 :: argv4 :: rest)).1,
      x.is_entry_point = false := by
  cases hreal : env.realpath argv0 with
  | none =>
    have hmain : main env (argv0 :: argv1 :: argv2 :: argv3 :: argv4 :: rest) =
        ([Event.realpath argv0 none], Outcome.ret (-1)) := by
      simp [main, hreal]
    rw [hmain] at he ⊢
    simp only [List.mem_singleton] at he
    subst he
    refine ⟨rfl, ⟨[], [], rfl, fun x hx => absurd hx (List.not_mem_nil x)⟩, ?_⟩
    intro x hx
    simp only [List.mem_singleton] at hx
    subst hx
    rfl
  | some host_path =>
    rw [main_resolved env argv0 argv1 argv2 argv3 argv4 host_path rest hreal] at he ⊢
    simp only [List.mem_cons] at he
    have hnot : e ≠ Event.realpath argv0 (some host_path) := by
      intro h
      subst h
      simp [Event.failed] at hf
    have he2 := he.resolve_left hnot
    by_cases hrc : env.get_hostfxr_path.1 = 0
    · rcases hl : (load_hostfxr env).2 with _ | b
      · rw [run_csharp_app_abort env _ _ hl] at he2
        exact absurd hrc ((load_hostfxr_events env e he2).2.2 hf)
      · have hb : b = true := by
          cases b with
          | true => rfl
          | false =>
            rw [run_csharp_app_not_loaded env _ _ hl] at he2
            exact absurd hrc ((load_hostfxr_events env e he2).2.2 hf)
        subst hb
        rw [run_csharp_app_loaded env _ _ hl] at he2 ⊢
        simp only [List.mem_append] at he2
        rcases he2 with h | h
        · exact absurd hrc ((load_hostfxr_events env e h).2.2 hf)
        · obtain ⟨h1, ⟨pre, post, h2, h3⟩, h4⟩ := run_loaded_failure env _ e h hf
          refine ⟨h1, ⟨Event.realpath argv0 (some host_path) :: ((load_hostfxr env).1 ++ pre),
            post, ?_, h3⟩, ?_⟩
          · simp only [h2, List.cons_append, List.append_assoc]
          · intro x hx
            simp only [List.mem_cons, List.mem_append] at hx
            rcases hx with rfl | hx | hx
            · rfl
            · exact (load_hostfxr_events env x hx).2.1
            · exact h4 x hx
    · have hl := load_hostfxr_rc env hrc
      have hl2 : (load_hostfxr env).2 = some false := by rw [hl]
      rw [run_csharp_app_not_loaded env _ _ hl2] at he2 ⊢
      rw [hl] at he2 ⊢
      simp only [List.mem_singleton] at he2
      subst he2
      refine ⟨rfl, ⟨[Event.realpath argv0 (some host_path)], [], rfl,
        fun x hx => absurd hx (List.not_mem_nil x)⟩, ?_⟩
      intro x hx
      simp only [List.mem_cons, List.mem_singleton, List.not_mem_nil, or_false] at hx
      rcases hx with rfl | rfl <;> rfl

theorem main_failure_witness :
    (main { env_ok 0 [] with hostfxr_get_runtime_delegate := fun _ => (0, 0) } sample_argv).2 =
      Outcome.ret (-1) ∧
    (∃ pre post,
      (main { env_ok 0 [] with hostfxr_get_runtime_delegate := fun _ => (0, 0) }
        sample_argv).1 = pre ++ Event.get_delegate 3 0 0 :: post ∧
      ∀ x ∈ post, x.is_close = true) ∧
    ∀ x ∈ (main { env_ok 0 [] with hostfxr_get_runtime_delegate := fun _ => (0, 0) }
        sample_argv).1, x.is_entry_point = false :=
  main_failure { env_ok 0 [] with hostfxr_get_runtime_delegate := fun _ => (0, 0) }
    "nativehost".toList "/x/App.dll".toList "Main".toList "NS".toList "Cls".toList
    ["a".toList] (Event.get_delegate 3 0 0) (by decide) (by decide)

/-- C8: when `load_hostfxr` has succeeded, the calls of `run_csharp_app` into
the hosting library are `[initialize, close]` when initialization fails,
`[initialize, get_delegate, close]` when delegate retrieval fails,
`[initialize, get_delegate, close, load_assembly_and_get_function_pointer]`
when entry-point retrieval fails, and these four followed by the entry point
on success; in every run `hostfxr_close` is called exactly once and no call
after it takes the context. -/
theorem hosting_call_sequence (env : Env) (host : List Char) (app_data : csharp_app_data)
    (hload : (load_hostfxr env).2 = some true) :
    (step_failed (init_result env app_data) →
      hosting_calls (run_csharp_app env host app_data).1 = [Call.init_for_run_config, Call.close]) ∧
    (¬ step_failed (init_result env app_data) → step_failed (delegate_result env app_data) →
      hosting_calls (run_csharp_app env host app_data).1 =
        [Call.init_for_run_config, Call.get_delegate, Call.close]) ∧
    (∀ name, ¬ step_failed (init_result env app_data) →
      ¬ step_failed (delegate_result env app_data) →
      get_name_from_path app_data.path = some name →
      (step_failed (entry_result env app_data name) →
        hosting_calls (run_csharp_app env host app_data).1 =
          [Call.init_for_run_config, Call.get_delegate, Call.close,
            Call.load_assembly_and_get_function_pointer]) ∧
      (¬ step_failed (entry_result env app_data name) →
        hosting_calls (run_csharp_app env host app_data).1 =
          [Call.init_for_run_config, Call.get_delegate, Call.close,
            Call.load_assembly_and_get_function_pointer, Call.entry_point])) ∧
    (hosting_calls (run_csharp_app env host app_data).1).count Call.close = 1 ∧
    ∀ c ∈ calls_after Call.close (hosting_calls (run_csharp_app env host app_data).1),
      c.takes_context = false := by
  rw [hosting_calls_run_csharp_app env host app_data hload]
  refine ⟨?_, ?_, ?_, ?_⟩
  · intro hi
    rw [run_loaded_init_failed env app_data hi]
    rfl
  · intro hi hd
    rw [run_loaded_delegate_failed env app_data hi hd]
    rfl
  · intro name hi hd hn
    constructor
    · intro hl
      rw [run_loaded_entry_failed env app_data name hi hd hn hl]
      rfl
    · intro hl
      rw [run_loaded_ok env app_data name hi hd hn hl]
      rfl
  · by_cases hi : step_failed (init_result env app_data)
    · rw [run_loaded_init_failed env app_data hi]
      exact close_once _ (Or.inl rfl)
    · by_cases hd : step_failed (delegate_result env app_data)
      · rw [run_loaded_delegate_failed env app_data hi hd]
        exact close_once _ (Or.inr (Or.inl rfl))
      · cases hn : get_name_from_path app_data.path with
        | none =>
          rw [run_loaded_out_of_bounds env app_data hi hd hn]
          exact close_once _ (Or.inr (Or.inl rfl))
        | some name =>
          by_cases hl : step_failed (entry_result env app_data name)
          · rw [run_loaded_entry_failed env app_data name hi hd hn hl]
            exact close_once _ (Or.inr (Or.inr (Or.inl rfl)))
          · rw [run_loaded_ok env app_data name hi hd hn hl]
            exact close_once _ (Or.inr (Or.inr (Or.inr rfl)))

theorem hosting_call_sequence_witness :
    (load_hostfxr (env_ok 7 [])).2 = some true ∧
    hosting_calls (run_csharp_app (env_ok 7 []) "/opt/host/".toList
      (make_app_data "/x/App.dll".toList "Main".toList "NS".toList "Cls".toList [])).1 =
      [Call.init_for_run_config, Call.get_delegate, Call.close,
        Call.load_assembly_and_get_function_pointer, Call.entry_point] :=
  ⟨by decide,
   ((hosting_call_sequence (env_ok 7 []) "/opt/host/".toList
      (make_app_data "/x/App.dll".toList "Main".toList "NS".toList "Cls".toList [])
      (by decide)).2.2.1 "App".toList (by decide) (by decide) (by decide)).2 (by decide)⟩

/-- C4 at a run with one forwarded argument: `main` stores the argument list
`["a"]` and the count 1 in `app_data`, but the managed entry point is called
with a null argument pointer and size 0. -/
theorem entry_point_arguments_dropped :
    (make_app_data "/x/App.dll".toList "Main".toList "NS".toList "Cls".toList
      ["a".toList]).args = some ["a".toList] ∧
    (make_app_data "/x/App.dll".toList "Main".toList "NS".toList "Cls".toList
      ["a".toList]).argc = 1 ∧
    (main (env_ok 0 []) sample_argv).1.getLast? = some (Event.entry_point none 0 0) ∧
    Event.entry_point (some ["a".toList]) 1 0 ∉ (main (env_ok 0 []) sample_argv).1 := by
  decide

/-- C5 at the path `/x/App.dll`: the allocation holds `App` without a zero
byte after it, so the type name that `run_csharp_app` passes on continues with
the bytes that follow the allocation; with `!` there it is `NS.Cls, App!`
instead of `NS.Cls, App`. -/
theorem dotnet_type_reads_past_allocation :
    get_name_from_path "/x/App.dll".toList = some "App".toList ∧
    dotnet_type "NS".toList "Cls".toList "App".toList "!".toList = "NS.Cls, App!".toList ∧
    Event.load_assembly_and_get_function_pointer "/x/App.dll".toList "NS.Cls, App!".toList
      "Main".toList 0 5 ∈ (main (env_ok 0 "!".toList) sample_argv).1 ∧
    Event.load_assembly_and_get_function_pointer "/x/App.dll".toList "NS.Cls, App".toList
      "Main".toList 0 5 ∉ (main (env_ok 0 "!".toList) sample_argv).1 := by
  decide

/-- C7 at an executable in the root directory: the loop stops before index 0,
finds no separator and leaves `host_path` as it was, file name included, while
a deeper path is cut after its last separator. -/
theorem truncate_host_path_root :
    truncate_host_path "/nativehost".toList = "/nativehost".toList ∧
    ("/nativehost".toList).getLast? ≠ some DIR_SEPARATOR ∧
    truncate_host_path "/opt/host/nativehost".toList = "/opt/host/".toList := by
  decide

/-- C9 at the path `/x/App.dll`: `name_size` is 3, the allocation of 3 bytes
holds `A`, `p`, `p` and no zero byte, and a read up to the first zero byte
runs on into the bytes after the allocation. -/
theorem get_name_from_path_not_terminated :
    get_name_from_path "/x/App.dll".toList = some ['A', 'p', 'p'] ∧
    NUL ∉ ['A', 'p', 'p'] ∧
    read_c_string ['A', 'p', 'p'] ['!', '?', NUL, 'x'] = ['A', 'p', 'p', '!', '?'] := by
  decide

end NativeHost
